import Mathlib

/-!
Verification of the qubit-addressing and gate-taxonomy core of a
quantum-circuit simulator (`blueqat/gate.py`).

The Python values that flow through the addressing functions are embedded
as the inductive type `PyVal`: an object carrying `__index__` (an integer),
a `slice` with optional integer bounds, a tuple, or any other object
(represented by its class name).  Python exceptions are embedded as the
`PyError` type, and each fallible function returns `Except PyError _`.
-/

/-- Python exception classes raised by the addressing/taxonomy core. -/
inductive PyError where
  | typeError (msg : String)
  | valueError (msg : String)
  | indexError (msg : String)
  | attributeError (msg : String)
  | notImplementedError (msg : String)
deriving DecidableEq, Repr

/-- A Python value as seen by the addressing functions: an integer-like
object, a slice with optional integer bounds, a tuple, or some other
object identified by its class name (which has no `__index__`). -/
inductive PyVal where
  | int (i : Int)
  | slice (start stop step : Option Int)
  | tuple (elems : List PyVal)
  | obj (className : String)

/-- Python class name of a `PyVal`, as used in error messages. -/
def PyVal.clsName : PyVal → String
  | .int _ => "int"
  | .slice _ _ _ => "slice"
  | .tuple _ => "tuple"
  | .obj n => n

/-- The ascending while-loop of `slicing_singlevalue`:
`while i < stop: yield i; i += step` (for a positive step). -/
def sliceLoopUp (i stop step : Int) (hstep : 0 < step) : List Int :=
  if i < stop then i :: sliceLoopUp (i + step) stop step hstep else []
termination_by (stop - i).toNat
decreasing_by omega

/-- The descending while-loop of `slicing_singlevalue`:
`while i > stop: yield i; i += step` (for a negative step). -/
def sliceLoopDown (i stop step : Int) (hstep : step < 0) : List Int :=
  if stop < i then i :: sliceLoopDown (i + step) stop step hstep else []
termination_by (i - stop).toNat
decreasing_by omega

/-- `slicing_singlevalue(arg, length)` from `gate.py`.  For a slice the
call `arg.indices(length)` (CPython `PySlice_GetIndicesEx`) is inlined:
the step defaults to 1 and must be non-zero, omitted bounds take the
defaults for the step sign, negative bounds are offset by `length` and
clamped; then the while-loops above produce the indices.  For an
integer-like object, a negative value is offset by `length` and yielded
with no bounds check.  Anything else raises `TypeError`. -/
def slicing_singlevalue (arg : PyVal) (length : Int) : Except PyError (List Int) :=
  match arg with
  | .slice rawStart rawStop rawStep =>
      if length < 0 then
        .error (.valueError "length should not be negative")
      else
        let step : Int := match rawStep with | none => 1 | some v => v
        if hz : step = 0 then
          .error (.valueError "slice step cannot be zero")
        else
          let lower : Int := if step < 0 then -1 else 0
          let upper : Int := if step < 0 then length - 1 else length
          let start : Int :=
            match rawStart with
            | none => if step < 0 then upper else lower
            | some s => if s < 0 then max (s + length) lower else min s upper
          let stop : Int :=
            match rawStop with
            | none => if step < 0 then lower else upper
            | some s => if s < 0 then max (s + length) lower else min s upper
          if hpos : 0 < step then
            .ok (sliceLoopUp start stop step hpos)
          else
            .ok (sliceLoopDown start stop step (by omega))
  | .int i =>
      .ok [if i < 0 then i + length else i]
  | other =>
      .error (.typeError ("indices must be integers or slices, not " ++ other.clsName))

/-- Sequencing of a fallible function over a list, propagating the first
raised exception (the effect of consuming a Python generator that raises
mid-iteration). -/
def mapExcept (f : α → Except PyError β) : List α → Except PyError (List β)
  | [] => .ok []
  | a :: rest =>
      match f a with
      | .error e => .error e
      | .ok b =>
          match mapExcept f rest with
          | .error e => .error e
          | .ok bs => .ok (b :: bs)

/-- `slicing(args, length)` from `gate.py`: a tuple is resolved element by
element and the results concatenated; anything else is resolved as a
single value. -/
def slicing (args : PyVal) (length : Int) : Except PyError (List Int) :=
  match args with
  | .tuple es =>
      match mapExcept (fun a => slicing_singlevalue a length) es with
      | .error e => .error e
      | .ok ls => .ok ls.flatten
  | other => slicing_singlevalue other length

/-- `qubit_pairs(args, length)` from `gate.py`: the argument must be a
2-tuple; both sides are resolved with `slicing`; the resolved lists must
have equal length and no positional pair may have equal components; the
result is the positional zip. -/
def qubit_pairs (args : PyVal) (length : Int) : Except PyError (List (Int × Int)) :=
  match args with
  | .tuple [c, t] =>
      match slicing c length with
      | .error e => .error e
      | .ok controls =>
          match slicing t length with
          | .error e => .error e
          | .ok targets =>
              if controls.length ≠ targets.length then
                .error (.valueError
                  "The number of control qubits and target qubits are must be same.")
              else if (controls.zip targets).any (fun p => p.1 == p.2) then
                .error (.valueError "Control qubit and target qubit are must be different.")
              else
                .ok (controls.zip targets)
  | _ => .error (.valueError "Control and target qubits pair(s) are required.")

/-- `_maximum_idx_single(idx)` inside `get_maximum_index`: a slice
contributes `max(start, stop - 1)` with a missing start read as `-1` and a
missing stop read as `0`; an integer-like object contributes its raw
`__index__()` value; anything else has no `__index__` and raises
`AttributeError`. -/
def maximum_idx_single (idx : PyVal) : Except PyError Int :=
  match idx with
  | .slice rawStart rawStop _ =>
      let start : Int := match rawStart with | none => -1 | some v => v
      let stop : Int := match rawStop with | none => 0 | some v => v
      .ok (max start (stop - 1))
  | .int i => .ok i
  | other => .error (.attributeError (other.clsName ++ " object has no attribute __index__"))

/-- Python's `max(xs)` over a non-empty list of integers. -/
def pyMax (x : Int) (xs : List Int) : Int := xs.foldl max x

/-- `get_maximum_index(indices)` from `gate.py`: the maximum of
`_maximum_idx_single` over a tuple's elements (Python's `max` of an empty
tuple raises `ValueError`), or `_maximum_idx_single` of the value itself. -/
def get_maximum_index (indices : PyVal) : Except PyError Int :=
  match indices with
  | .tuple [] => .error (.valueError "max() arg is an empty sequence")
  | .tuple (e :: rest) =>
      match maximum_idx_single e with
      | .error err => .error err
      | .ok v =>
          match mapExcept maximum_idx_single rest with
          | .error err => .error err
          | .ok vs => .ok (pyMax v vs)
  | other => maximum_idx_single other

/-- A Python gate class as the taxonomy sees it: its name and its
(possibly missing) `lowername` class attribute.  The abstract base class
`Gate` leaves `lowername = None`; every shipped concrete class overrides
it. -/
structure GateClass where
  name : String
  lowername : Option String
deriving DecidableEq, Repr

def GateBase : GateClass := ⟨"Gate", none⟩
def OneQubitGate : GateClass := ⟨"OneQubitGate", none⟩
def TwoQubitGate : GateClass := ⟨"TwoQubitGate", none⟩
def IGate : GateClass := ⟨"IGate", some "i"⟩
def XGate : GateClass := ⟨"XGate", some "x"⟩
def YGate : GateClass := ⟨"YGate", some "y"⟩
def ZGate : GateClass := ⟨"ZGate", some "z"⟩
def HGate : GateClass := ⟨"HGate", some "h"⟩
def CZGate : GateClass := ⟨"CZGate", some "cz"⟩
def CXGate : GateClass := ⟨"CXGate", some "cx"⟩
def RXGate : GateClass := ⟨"RXGate", some "rx"⟩
def RYGate : GateClass := ⟨"RYGate", some "ry"⟩
def RZGate : GateClass := ⟨"RZGate", some "rz"⟩
def TGate : GateClass := ⟨"TGate", some "t"⟩
def SGate : GateClass := ⟨"SGate", some "s"⟩
def Measurement : GateClass := ⟨"Measurement", some "measure"⟩

/-- The concrete (instantiable, tagged) gate classes shipped in `gate.py`. -/
def concreteGateClasses : List GateClass :=
  [IGate, XGate, YGate, ZGate, HGate, CZGate, CXGate,
   RXGate, RYGate, RZGate, TGate, SGate, Measurement]

/-- A constructed gate instance: its class and its stored `targets`
specifier (the angle of rotation gates plays no role in any claim). -/
structure GateObj where
  cls : GateClass
  targets : PyVal

/-- `Gate.__init__(self, targets)` from `gate.py`: raises `ValueError`
when the class's `lowername` is still `None`, otherwise stores the
targets. -/
def gateInit (cls : GateClass) (targets : PyVal) : Except PyError GateObj :=
  match cls.lowername with
  | none => .error (.valueError (cls.name ++ ".lowername is not defined."))
  | some _ => .ok ⟨cls, targets⟩

/-- The `fallback` method dispatch of `gate.py`: `IGate` overrides it to
return the empty gate list; every other class inherits `Gate.fallback`,
which raises `NotImplementedError`. -/
def fallback (g : GateObj) : Except PyError (List GateObj) :=
  if g.cls = IGate then .ok []
  else .error (.notImplementedError
    ("The fallback of " ++ g.cls.name ++ " gate is not defined."))

/-- Python's `max(xs, default=d)`: `d` on an empty list, else the maximum. -/
def pyMaxDefault (d : Int) : List Int → Int
  | [] => d
  | x :: xs => pyMax x xs

/-- `find_n_qubits(gates)` from `gate.py`:
`max((get_maximum_index(g.targets) for g in gates), default=-1) + 1`. -/
def find_n_qubits (gates : List GateObj) : Except PyError Int :=
  match mapExcept (fun g => get_maximum_index g.targets) gates with
  | .error e => .error e
  | .ok ms => .ok (pyMaxDefault (-1) ms + 1)

/-! ### Specification-side model of range resolution

The following definitions are written from the spec's words (§4.1, range
bullet), to be compared with `slicing_singlevalue` on slices. -/

/-- Ceiling division on naturals: the length of the progression from
`a` toward `b` exclusive with stride `s` is `ceilDivNat (b - a) s`. -/
def ceilDivNat (a b : Nat) : Nat := (a + b - 1) / b

/-- The arithmetic progression from `start` toward `stop` exclusive with
stride `step`, in closed form: element `k` is `start + k * step`. -/
def arithSeq (start stop step : Int) : List Int :=
  if 0 < step then
    (List.range (ceilDivNat (stop - start).toNat step.toNat)).map
      (fun k : Nat => start + (k : Int) * step)
  else
    (List.range (ceilDivNat (start - stop).toNat (-step).toNat)).map
      (fun k : Nat => start + (k : Int) * step)

/-- Modelled from the spec: resolution of a range `(start, stop, step)`
against qubit count `n` — "step defaults to 1 if unspecified, must be
non-zero; start/stop default per standard slice semantics relative to `n`
(omitted start ⇒ 0 if step>0 else n-1; omitted stop ⇒ n if step>0 else
-1), negative values are offset by `n`, clamped into `[0, n]` (or
`[-1, n-1]` for descending). Produces the arithmetic progression from
start toward stop exclusive." -/
def specRangeResolve (start stop stepArg : Option Int) (n : Int) :
    Except PyError (List Int) :=
  let step : Int := match stepArg with | none => 1 | some v => v
  if step = 0 then .error (.valueError "slice step cannot be zero")
  else
    let lo : Int := if 0 < step then 0 else -1
    let hi : Int := if 0 < step then n else n - 1
    let start' : Int :=
      match start with
      | none => if 0 < step then 0 else n - 1
      | some s => min (max (if s < 0 then s + n else s) lo) hi
    let stop' : Int :=
      match stop with
      | none => if 0 < step then n else -1
      | some s => min (max (if s < 0 then s + n else s) lo) hi
    .ok (arithSeq start' stop' step)

/-! ### Helper lemmas -/

theorem ceilDivNat_zero (s : Nat) (hs : 0 < s) : ceilDivNat 0 s = 0 := by
  unfold ceilDivNat
  exact Nat.div_eq_of_lt (by omega)

theorem ceilDivNat_rec (m s : Nat) (hs : 0 < s) (hm : 0 < m) :
    ceilDivNat m s = ceilDivNat (m - s) s + 1 := by
  unfold ceilDivNat
  rcases le_or_lt m s with hle | hlt
  · have h1 : m - s = 0 := by omega
    have h2 : m + s - 1 = (m - 1) + s := by omega
    rw [h1, h2, Nat.add_div_right _ hs]
    have h3 : (m - 1) / s = 0 := Nat.div_eq_of_lt (by omega)
    have h4 : (0 + s - 1) / s = 0 := Nat.div_eq_of_lt (by omega)
    omega
  · have h2 : m + s - 1 = (m - s + s - 1) + s := by omega
    rw [h2, Nat.add_div_right _ hs]

theorem sliceLoopUp_eq_aux (step : Int) (h : 0 < step) :
    ∀ (d : Nat) (i stop : Int), (stop - i).toNat ≤ d →
      sliceLoopUp i stop step h =
        (List.range (ceilDivNat (stop - i).toNat step.toNat)).map
          (fun k : Nat => i + (k : Int) * step) := by
  intro d
  induction d with
  | zero =>
      intro i stop hle
      rw [sliceLoopUp, if_neg (by omega)]
      have h0 : (stop - i).toNat = 0 := by omega
      rw [h0, ceilDivNat_zero _ (by omega)]
      simp
  | succ d ih =>
      intro i stop hle
      by_cases hlt : i < stop
      · rw [sliceLoopUp, if_pos hlt, ih (i + step) stop (by omega)]
        have hrec : ceilDivNat (stop - i).toNat step.toNat =
            ceilDivNat (stop - (i + step)).toNat step.toNat + 1 := by
          rw [ceilDivNat_rec _ _ (by omega) (by omega)]
          congr 2
          omega
        rw [hrec, List.range_succ_eq_map, List.map_cons, List.map_map]
        have hfun : ((fun k : Nat => i + (k : Int) * step) ∘ Nat.succ) =
            fun k : Nat => (i + step) + (k : Int) * step := by
          funext k
          simp only [Function.comp_apply, Nat.succ_eq_add_one]
          push_cast
          ring
        rw [hfun]
        simp
      · rw [sliceLoopUp, if_neg hlt]
        have h0 : (stop - i).toNat = 0 := by omega
        rw [h0, ceilDivNat_zero _ (by omega)]
        simp

theorem sliceLoopUp_arithSeq (i stop step : Int) (h : 0 < step) :
    sliceLoopUp i stop step h = arithSeq i stop step := by
  rw [arithSeq, if_pos h]
  exact sliceLoopUp_eq_aux step h _ i stop le_rfl

theorem sliceLoopDown_eq_aux (step : Int) (h : step < 0) :
    ∀ (d : Nat) (i stop : Int), (i - stop).toNat ≤ d →
      sliceLoopDown i stop step h =
        (List.range (ceilDivNat (i - stop).toNat (-step).toNat)).map
          (fun k : Nat => i + (k : Int) * step) := by
  intro d
  induction d with
  | zero =>
      intro i stop hle
      rw [sliceLoopDown, if_neg (by omega)]
      have h0 : (i - stop).toNat = 0 := by omega
      rw [h0, ceilDivNat_zero _ (by omega)]
      simp
  | succ d ih =>
      intro i stop hle
      by_cases hlt : stop < i
      · rw [sliceLoopDown, if_pos hlt, ih (i + step) stop (by omega)]
        have hrec : ceilDivNat (i - stop).toNat (-step).toNat =
            ceilDivNat ((i + step) - stop).toNat (-step).toNat + 1 := by
          rw [ceilDivNat_rec _ _ (by omega) (by omega)]
          congr 2
          omega
        rw [hrec, List.range_succ_eq_map, List.map_cons, List.map_map]
        have hfun : ((fun k : Nat => i + (k : Int) * step) ∘ Nat.succ) =
            fun k : Nat => (i + step) + (k : Int) * step := by
          funext k
          simp only [Function.comp_apply, Nat.succ_eq_add_one]
          push_cast
          ring
        rw [hfun]
        simp
      · rw [sliceLoopDown, if_neg hlt]
        have h0 : (i - stop).toNat = 0 := by omega
        rw [h0, ceilDivNat_zero _ (by omega)]
        simp

theorem sliceLoopDown_arithSeq (i stop step : Int) (h : step < 0) :
    sliceLoopDown i stop step h = arithSeq i stop step := by
  rw [arithSeq, if_neg (by omega)]
  exact sliceLoopDown_eq_aux step h _ i stop le_rfl

theorem clamp_asc (s n : Int) (hn : 0 ≤ n) :
    (if s < 0 then max (s + n) 0 else min s n) =
      min (max (if s < 0 then s + n else s) 0) n := by
  rcases lt_or_le s 0 with h | h
  · rw [if_pos h, if_pos h, min_def, max_def]
    split_ifs <;> omega
  · rw [if_neg (by omega), if_neg (by omega), min_def, min_def, max_def]
    split_ifs <;> omega

theorem clamp_desc (s n : Int) (hn : 0 ≤ n) :
    (if s < 0 then max (s + n) (-1) else min s (n - 1)) =
      min (max (if s < 0 then s + n else s) (-1)) (n - 1) := by
  rcases lt_or_le s 0 with h | h
  · rw [if_pos h, if_pos h, min_def, max_def]
    split_ifs <;> omega
  · rw [if_neg (by omega), if_neg (by omega), min_def, min_def, max_def]
    split_ifs <;> omega

theorem slice_source_eq_spec (st sp stp : Option Int) (n : Int) (hn : 0 ≤ n) :
    slicing_singlevalue (PyVal.slice st sp stp) n = specRangeResolve st sp stp n := by
  have hnn : ¬ n < 0 := by omega
  rcases stp with _ | v
  · rcases st with _ | s <;> rcases sp with _ | s' <;>
      simp only [slicing_singlevalue, specRangeResolve, if_neg hnn] <;>
      norm_num <;>
      rw [sliceLoopUp_arithSeq] <;>
      congr 1 <;>
      omega
  · rcases eq_or_ne v 0 with hv | hv
    · subst hv
      simp only [slicing_singlevalue, specRangeResolve, if_neg hnn]
      norm_num
    · rcases lt_or_gt_of_ne hv with hneg | hpos
      · rcases st with _ | s <;> rcases sp with _ | s' <;>
          simp only [slicing_singlevalue, specRangeResolve, if_neg hnn,
            eq_false hv, dite_false, if_false, eq_true hneg,
            eq_false (by omega : ¬ (0 : Int) < v), if_true] <;>
          rw [sliceLoopDown_arithSeq _ _ _ hneg] <;>
          simp only [Except.ok.injEq] <;>
          congr 1 <;>
          (try split_ifs) <;>
          omega
      · rcases st with _ | s <;> rcases sp with _ | s' <;>
          simp only [slicing_singlevalue, specRangeResolve, if_neg hnn,
            eq_false hv, dite_false, if_false, eq_true hpos,
            eq_false (by omega : ¬ v < 0), if_true, dite_true] <;>
          rw [sliceLoopUp_arithSeq] <;>
          simp only [Except.ok.injEq] <;>
          congr 1 <;>
          (try split_ifs) <;>
          omega

/-! ### Claim theorems -/

/-- C1 counterexample: resolving the single index 5 against 3 qubits
yields `[5]` — the claimed `IndexError` for a resolved index `>= n` is
never raised. -/
theorem single_index_out_of_range_yields_value :
    slicing_singlevalue (PyVal.int 5) 3 = .ok [5] := rfl

/-- C1 (amended): resolving a single integer index `i` against qubit
count `n` first replaces a negative `i` with `i + n` and yields exactly
that one value; it never fails — no bounds check is performed — and in
particular for every `i` in `[0, n)` it succeeds and yields `i`. -/
theorem single_index_wraparound_total (i n : Int) :
    ∃ j, slicing_singlevalue (PyVal.int i) n = .ok [j] ∧
      j = (if i < 0 then i + n else i) :=
  ⟨if i < 0 then i + n else i, rfl, rfl⟩

/-- C7: the decomposition of the Identity gate is the empty gate
sequence: for every targets specifier, constructing `IGate(targets)`
succeeds and its `fallback()` returns the empty list. -/
theorem igate_fallback_is_empty (t : PyVal) :
    gateInit IGate t = .ok ⟨IGate, t⟩ ∧ fallback ⟨IGate, t⟩ = .ok [] :=
  ⟨rfl, rfl⟩

/-- C8: resolving a QubitSpec element that is neither an integer-like
object nor a slice fails with a `TypeError` naming the offending class,
for every qubit count `n`. -/
theorem typeerror_for_non_index_non_slice (name : String) (n : Int) (es : List PyVal) :
    slicing_singlevalue (PyVal.obj name) n =
      .error (.typeError ("indices must be integers or slices, not " ++ name)) ∧
    slicing_singlevalue (PyVal.tuple es) n =
      .error (.typeError "indices must be integers or slices, not tuple") :=
  ⟨rfl, rfl⟩

/-- C9: single-index resolution is total over the integers: for every
`i` and every `n`, `slicing` (and the underlying `slicing_singlevalue`)
yields exactly the one-element sequence `[i]` when `i ≥ 0` and `[i + n]`
when `i < 0`, raising no error even when the value lies outside
`[0, n)`. -/
theorem single_index_resolution_total (i n : Int) :
    slicing (PyVal.int i) n = .ok [if i < 0 then i + n else i] ∧
    slicing_singlevalue (PyVal.int i) n = .ok [if i < 0 then i + n else i] :=
  ⟨rfl, rfl⟩

/-- C10: `find_n_qubits` can return a negative value: a gate whose
targets spec is the single integer `i` contributes the raw literal, so a
one-gate list targeting `-3` yields `-2`, and in general a one-gate list
targeting `i` yields `i + 1`. -/
theorem find_n_qubits_negative_result :
    find_n_qubits [⟨XGate, PyVal.int (-3)⟩] = .ok (-2) ∧
    find_n_qubits [⟨XGate, PyVal.int (-3)⟩, ⟨HGate, PyVal.int (-5)⟩] = .ok (-2) ∧
    ∀ (c : GateClass) (i : Int), find_n_qubits [⟨c, PyVal.int i⟩] = .ok (i + 1) :=
  ⟨rfl, rfl, fun _ _ => rfl⟩

/-- C5: every gate class that does not define its own decomposition —
in the shipped taxonomy, every concrete class other than `IGate` —
inherits `Gate.fallback`, which fails with `NotImplementedError`. -/
theorem fallback_not_implemented_unless_igate
    (c : GateClass) (hne : c ≠ IGate) (t : PyVal) :
    fallback ⟨c, t⟩ =
      .error (.notImplementedError
        ("The fallback of " ++ c.name ++ " gate is not defined.")) := by
  simp only [fallback]
  rw [if_neg hne]

/-- Witness for C5 at the Pauli-X gate class. -/
theorem fallback_not_implemented_unless_igate_witness :
    XGate ≠ IGate ∧
    fallback ⟨XGate, PyVal.int 0⟩ =
      .error (.notImplementedError
        ("The fallback of " ++ XGate.name ++ " gate is not defined.")) :=
  ⟨by decide, fallback_not_implemented_unless_igate XGate (by decide) (PyVal.int 0)⟩

/-- C6: constructing a gate whose class lacks the required `lowername`
tag fails with a `ValueError` for every targets argument; constructing a
gate whose class defines its tag succeeds and stores the given targets;
and every shipped concrete gate class defines its tag. -/
theorem gate_construction_lowername :
    (∀ (cls : GateClass) (t : PyVal),
      (cls.lowername = none →
        gateInit cls t =
          .error (.valueError (cls.name ++ ".lowername is not defined."))) ∧
      (∀ s, cls.lowername = some s → gateInit cls t = .ok ⟨cls, t⟩)) ∧
    concreteGateClasses.all (fun c => c.lowername.isSome) = true := by
  refine ⟨fun cls t => ⟨fun h => ?_, fun s h => ?_⟩, rfl⟩
  · simp [gateInit, h]
  · simp [gateInit, h]

/-- Witness for C6: the abstract base class (no tag) fails, a tagged
class succeeds. -/
theorem gate_construction_lowername_witness :
    gateInit GateBase (PyVal.int 0) =
      .error (.valueError (GateBase.name ++ ".lowername is not defined.")) ∧
    gateInit XGate (PyVal.int 0) = .ok ⟨XGate, PyVal.int 0⟩ :=
  ⟨(gate_construction_lowername.1 GateBase (PyVal.int 0)).1 rfl,
   (gate_construction_lowername.1 XGate (PyVal.int 0)).2 "x" rfl⟩

theorem mapExcept_const {α : Type} (f : α → Except PyError Int) (c : Int) :
    ∀ (l : List α), (∀ a ∈ l, f a = .ok c) →
      mapExcept f l = .ok (List.replicate l.length c) := by
  intro l
  induction l with
  | nil => intro _; rfl
  | cons a rest ih =>
      intro h
      have ha : f a = .ok c := h a (List.mem_cons_self a rest)
      have hrest : mapExcept f rest = .ok (List.replicate rest.length c) :=
        ih (fun b hb => h b (List.mem_cons_of_mem a hb))
      simp [mapExcept, ha, hrest, List.replicate_succ]

theorem foldl_max_replicate (c : Int) :
    ∀ k, List.foldl max c (List.replicate k c) = c := by
  intro k
  induction k with
  | zero => rfl
  | succ k ih => simp [List.replicate_succ, ih]

theorem pyMaxDefault_replicate (c : Int) (k : Nat) :
    pyMaxDefault c (List.replicate k c) = c := by
  cases k with
  | zero => rfl
  | succ k => simp [List.replicate_succ, pyMaxDefault, pyMax, foldl_max_replicate]

/-- C2 counterexample: `get_maximum_index` of the single negative index
`-3` is the raw literal `-3`, not the claimed conservative `-1`. -/
theorem max_index_negative_single_is_raw :
    get_maximum_index (PyVal.int (-3)) = .ok (-3) := rfl

/-- C2 (amended): `get_maximum_index` of a single index is its raw
literal (a negative single index contributes its raw negative value); of
a slice it is `max(start, stop - 1)` over the explicitly given bounds
(missing start reads as `-1`, missing stop as `0`); of a non-empty tuple
it is the maximum over the elements' values; and `find_n_qubits` is
`1 + max` over all gates with default `-1`, hence `0` for an empty list
and `0` when every gate's spec is fully open-ended. -/
theorem max_index_raw_literal_semantics :
    (∀ i : Int, get_maximum_index (PyVal.int i) = .ok i) ∧
    (∀ st sp stp, get_maximum_index (PyVal.slice st sp stp) =
      .ok (max (match st with | none => (-1 : Int) | some v => v)
               ((match sp with | none => (0 : Int) | some v => v) - 1))) ∧
    (∀ (e : PyVal) (es : List PyVal) (v : Int) (vs : List Int),
      maximum_idx_single e = .ok v → mapExcept maximum_idx_single es = .ok vs →
      get_maximum_index (PyVal.tuple (e :: es)) = .ok (pyMax v vs)) ∧
    (find_n_qubits [] = .ok 0) ∧
    (∀ (gates : List GateObj) (ms : List Int),
      mapExcept (fun g => get_maximum_index g.targets) gates = .ok ms →
      find_n_qubits gates = .ok (pyMaxDefault (-1) ms + 1)) ∧
    (∀ gates : List GateObj,
      (∀ g ∈ gates, get_maximum_index g.targets = .ok (-1)) →
      find_n_qubits gates = .ok 0) := by
  refine ⟨fun i => rfl, fun st sp stp => rfl, ?_, rfl, ?_, ?_⟩
  · intro e es v vs he hes
    simp [get_maximum_index, he, hes]
  · intro gates ms h
    simp [find_n_qubits, h]
  · intro gates hall
    have hmap := mapExcept_const (fun g => get_maximum_index g.targets) (-1) gates hall
    rcases gates with _ | ⟨g, rest⟩
    · rfl
    · simp [find_n_qubits, hmap, List.replicate_succ, pyMaxDefault,
        pyMax, foldl_max_replicate]

/-- Witness for C2 at concrete inputs: a two-element tuple, the general
`find_n_qubits` formula, and a fully open-ended one-gate list. -/
theorem max_index_raw_literal_semantics_witness :
    get_maximum_index (PyVal.tuple [PyVal.int 2, PyVal.int 5]) = .ok (pyMax 2 [5]) ∧
    find_n_qubits [⟨HGate, PyVal.int 4⟩] = .ok (pyMaxDefault (-1) [4] + 1) ∧
    find_n_qubits [⟨HGate, PyVal.slice none none none⟩] = .ok 0 :=
  ⟨max_index_raw_literal_semantics.2.2.1 (PyVal.int 2) [PyVal.int 5] 2 [5] rfl rfl,
   max_index_raw_literal_semantics.2.2.2.2.1 [⟨HGate, PyVal.int 4⟩] [4] rfl,
   max_index_raw_literal_semantics.2.2.2.2.2 [⟨HGate, PyVal.slice none none none⟩]
     (by intro g hg; simp at hg; subst hg; rfl)⟩

/-- C3: `qubit_pairs` fails with a `ValueError` whenever the specifier
is not exactly a 2-tuple, or the resolved control and target sequences
have different lengths, or some resolved positional pair has equal
control and target; otherwise it returns the pairs matched by position,
`control[i]` with `target[i]`, in order. -/
theorem qubit_pairs_spec :
    (∀ (v : PyVal) (n : Int), (∀ c t, v ≠ PyVal.tuple [c, t]) →
      qubit_pairs v n =
        .error (.valueError "Control and target qubits pair(s) are required.")) ∧
    (∀ (c t : PyVal) (n : Int) (cs ts : List Int),
      slicing c n = .ok cs → slicing t n = .ok ts →
      (cs.length ≠ ts.length →
        qubit_pairs (PyVal.tuple [c, t]) n =
          .error (.valueError
            "The number of control qubits and target qubits are must be same.")) ∧
      (cs.length = ts.length → (∃ p ∈ cs.zip ts, p.1 = p.2) →
        qubit_pairs (PyVal.tuple [c, t]) n =
          .error (.valueError "Control qubit and target qubit are must be different.")) ∧
      (cs.length = ts.length → (∀ p ∈ cs.zip ts, p.1 ≠ p.2) →
        qubit_pairs (PyVal.tuple [c, t]) n = .ok (cs.zip ts))) := by
  constructor
  · intro v n h
    cases v with
    | int i => rfl
    | slice a b c => rfl
    | obj s => rfl
    | tuple es =>
        match es with
        | [] => rfl
        | [a] => rfl
        | [a, b] => exact absurd rfl (h a b)
        | a :: b :: c :: rest => rfl
  · intro c t n cs ts hc ht
    refine ⟨fun hne => ?_, fun hlen hex => ?_, fun hlen hall => ?_⟩
    · simp [qubit_pairs, hc, ht, hne]
    · have hany : (cs.zip ts).any (fun p => p.1 == p.2) = true := by
        rcases hex with ⟨p, hp, hpe⟩
        simp only [List.any_eq_true]
        exact ⟨p, hp, by simpa using hpe⟩
      simp [qubit_pairs, hc, ht, hlen, hany]
    · have hany : (cs.zip ts).any (fun p => p.1 == p.2) = false := by
        simp only [List.any_eq_false]
        intro p hp
        simpa using hall p hp
      simp [qubit_pairs, hc, ht, hlen, hany]

/-- Witness for C3 at concrete inputs: a non-tuple, a length mismatch,
an equal pair, and a successful pairing. -/
theorem qubit_pairs_spec_witness :
    qubit_pairs (PyVal.int 0) 2 =
      .error (.valueError "Control and target qubits pair(s) are required.") ∧
    qubit_pairs (PyVal.tuple [PyVal.tuple [PyVal.int 0, PyVal.int 1], PyVal.int 2]) 3 =
      .error (.valueError
        "The number of control qubits and target qubits are must be same.") ∧
    qubit_pairs (PyVal.tuple [PyVal.int 1, PyVal.int 1]) 2 =
      .error (.valueError "Control qubit and target qubit are must be different.") ∧
    qubit_pairs (PyVal.tuple [PyVal.int 0, PyVal.int 1]) 2 = .ok [(0, 1)] :=
  ⟨qubit_pairs_spec.1 (PyVal.int 0) 2 (fun c t h => PyVal.noConfusion h),
   (qubit_pairs_spec.2 (PyVal.tuple [PyVal.int 0, PyVal.int 1]) (PyVal.int 2) 3
      [0, 1] [2] rfl rfl).1 (by decide),
   (qubit_pairs_spec.2 (PyVal.int 1) (PyVal.int 1) 2 [1] [1] rfl rfl).2.1 rfl
      ⟨(1, 1), by decide, rfl⟩,
   (qubit_pairs_spec.2 (PyVal.int 0) (PyVal.int 1) 2 [0] [1] rfl rfl).2.2 rfl
      (by decide)⟩

/-- C4: resolving a range specifier `(start, stop, step)` against qubit
count `n ≥ 0` follows standard Python slice semantics — the step
defaults to 1 and must be non-zero, omitted bounds take the slice
defaults for the step's sign, negative bounds are offset by `n` and
clamped — and produces the arithmetic progression from start toward stop
exclusive (`specRangeResolve`, written from the spec); a zero step is a
`ValueError`, and any non-zero step always yields a (possibly empty)
sequence, never an error. -/
theorem range_resolution_matches_python_slice
    (st sp stp : Option Int) (n : Int) (hn : 0 ≤ n) :
    slicing_singlevalue (PyVal.slice st sp stp) n = specRangeResolve st sp stp n ∧
    (stp = some 0 →
      slicing_singlevalue (PyVal.slice st sp stp) n =
        .error (.valueError "slice step cannot be zero")) ∧
    (stp ≠ some 0 →
      ∃ l, slicing_singlevalue (PyVal.slice st sp stp) n = .ok l) := by
  refine ⟨slice_source_eq_spec st sp stp n hn, fun h => ?_, fun h => ?_⟩
  · subst h
    simp only [slicing_singlevalue, if_neg (show ¬ n < 0 by omega)]
    norm_num
  · rw [slice_source_eq_spec st sp stp n hn]
    have hstep : (match stp with | none => (1 : Int) | some v => v) ≠ 0 := by
      rcases stp with _ | v
      · norm_num
      · simpa using h
    cases hE : specRangeResolve st sp stp n with
    | error e =>
        exfalso
        simp only [specRangeResolve] at hE
        rw [if_neg hstep] at hE
        exact Except.noConfusion hE
    | ok l => exact ⟨l, rfl⟩

/-- Witness for C4 at start=1, stop=7, step=2, n=5 (and at a zero step
and an empty ascending range). -/
theorem range_resolution_matches_python_slice_witness :
    slicing_singlevalue (PyVal.slice (some 1) (some 7) (some 2)) 5 =
      specRangeResolve (some 1) (some 7) (some 2) 5 ∧
    specRangeResolve (some 1) (some 7) (some 2) 5 = .ok [1, 3] ∧
    slicing_singlevalue (PyVal.slice none none (some 0)) 5 =
      .error (.valueError "slice step cannot be zero") ∧
    specRangeResolve (some 4) (some 2) (some 1) 5 = .ok [] :=
  ⟨(range_resolution_matches_python_slice (some 1) (some 7) (some 2) 5
      (by norm_num)).1,
   by rfl,
   (range_resolution_matches_python_slice none none (some 0) 5
      (by norm_num)).2.1 rfl,
   by rfl⟩
